import Mathlib

/-!
# Verification of the BlogContentAnalyzer speech / insights services

Shallow embedding of the core of the repository:

* `cleanTextForSpeech` — the markdown-stripping transformation of
  `src/services/speechService.ts` (lines 200-224), translated regex rule by
  regex rule into executable functions on `List Char`.
* the speech-adapter bookkeeping (`currentUtterance` / `isPaused` /
  `isCurrentlySpeaking`, `speakText`, `stopSpeaking`, `pauseSpeaking`,
  `isSpeaking`, `isSpeechPaused`).
* the UI poll tick of `App.tsx` (lines 31-68).
* the input checks of `generateInsights` (`geminiService.ts`).

Conventions: JavaScript strings are modelled as `List Char`; the `\s` class is
modelled by its ASCII part (the inputs of interest are ASCII apart from the
mangled bullet marker, see `bulletMark`); fallible operations return sum types.
-/

namespace BlogAnalyzer

/-- The backtick character (code point 96). -/
def btChar : Char := Char.ofNat 96

/-- ASCII whitespace as matched by the JS `\s` class (space, tab, newline,
carriage return, vertical tab, form feed).  JS `\s` additionally matches some
non-ASCII whitespace; those characters do not occur in the texts modelled here. -/
def isWs (c : Char) : Bool :=
  c == ' ' || c == '\t' || c == '\n' || c == '\r' || c == Char.ofNat 11 || c == Char.ofNat 12

/-! ## The cleaning pipeline (`cleanTextForSpeech`)

Each regex `replace` of the source becomes one pass over the character list.
All passes take a fuel argument equal to the length of their input: every
step of every pass consumes at least one input character, so that fuel always
suffices, and keeping the recursion structural lets the kernel evaluate the
pipeline on concrete strings. -/

/-- Consume up to `n` further `#` characters (the upper bound of `#{1,6}`,
the first `#` having already been consumed by the caller). -/
def dropHashes : Nat → List Char → List Char
  | 0, l => l
  | n + 1, c :: rest => if c == '#' then dropHashes n rest else c :: rest
  | _ + 1, [] => []

/-- The pass `/#{1,6}\s*/g → ''` (strip markdown headers): a run of one to six
`#` plus the following greedy whitespace is deleted, anywhere in the string. -/
def headersGo : Nat → List Char → List Char
  | 0, _ => []
  | _ + 1, [] => []
  | f + 1, c :: rest =>
    if c == '#' then headersGo f ((dropHashes 5 rest).dropWhile isWs)
    else c :: headersGo f rest

/-- Find the closing `**` for `/\*\*(.*?)\*\*/`: the lazily matched content is
the run up to the first later `**`, and `.` does not match a newline.  Returns
the captured content and the rest after the closing marker. -/
def findBoldClose : List Char → Option (List Char × List Char)
  | '*' :: '*' :: rest => some ([], rest)
  | '\n' :: _ => none
  | c :: rest => (findBoldClose rest).map fun p => (c :: p.1, p.2)
  | [] => none

/-- The pass `/\*\*(.*?)\*\*/g → '$1'` (strip bold markers). -/
def boldGo : Nat → List Char → List Char
  | 0, _ => []
  | _ + 1, [] => []
  | f + 1, '*' :: '*' :: rest =>
    (match findBoldClose rest with
     | some (content, r) => content ++ boldGo f r
     | none => '*' :: boldGo f ('*' :: rest))
  | f + 1, c :: rest => c :: boldGo f rest

/-- Find the closing single marker `m` for `/m(.*?)m/` on the current line. -/
def findMarkClose (m : Char) : List Char → Option (List Char × List Char)
  | [] => none
  | c :: rest =>
    if c == m then some ([], rest)
    else if c == '\n' then none
    else (findMarkClose m rest).map fun p => (c :: p.1, p.2)

/-- A pass `/m(.*?)m/g → '$1'` for a single-character marker `m`; used with
`'*'` for `/\*(.*?)\*/g` (italic) and with a backtick for inline code. -/
def pairGo (m : Char) : Nat → List Char → List Char
  | 0, _ => []
  | _ + 1, [] => []
  | f + 1, c :: rest =>
    if c == m then
      match findMarkClose m rest with
      | some (content, r) => content ++ pairGo m f r
      | none => c :: pairGo m f rest
    else c :: pairGo m f rest

/-- Find the closing triple backtick of a code block (lazy, `[\s\S]*?` also
matches newlines); content is dropped by the caller. -/
def findFenceClose : List Char → Option (List Char)
  | a :: b :: c :: rest =>
    if a == btChar && b == btChar && c == btChar then some rest
    else findFenceClose (b :: c :: rest)
  | _ => none

/-- The pass removing fenced code blocks (triple backtick to triple backtick,
replaced by the empty string). -/
def fenceGo : Nat → List Char → List Char
  | 0, _ => []
  | _ + 1, [] => []
  | f + 1, c :: rest =>
    if c == btChar then
      match rest with
      | b :: d :: rest2 =>
        if b == btChar && d == btChar then
          match findFenceClose rest2 with
          | some r => fenceGo f r
          | none => c :: fenceGo f rest
        else c :: fenceGo f rest
      | _ => c :: fenceGo f rest
    else c :: fenceGo f rest

/-- Try to parse `[text](url)` at the head of `l`, following
`/\[([^\]]+)\]\([^)]+\)/`: nonempty bracket content up to the first `]`,
then `(`, nonempty content up to the first `)`.  Returns the link text and
the rest after the closing parenthesis. -/
def parseLink (l : List Char) : Option (List Char × List Char) :=
  match l with
  | '[' :: rest =>
    let txt := rest.takeWhile fun c => c != ']'
    (match rest.dropWhile (fun c => c != ']') with
     | ']' :: '(' :: r2 =>
       let url := r2.takeWhile fun c => c != ')'
       (match r2.dropWhile (fun c => c != ')') with
        | ')' :: r3 => if txt.isEmpty || url.isEmpty then none else some (txt, r3)
        | _ => none)
     | _ => none)
  | _ => none

/-- The pass `/\[([^\]]+)\]\([^)]+\)/g → '$1'` (links become their text). -/
def linksGo : Nat → List Char → List Char
  | 0, _ => []
  | _ + 1, [] => []
  | f + 1, c :: rest =>
    if c == '[' then
      match parseLink (c :: rest) with
      | some (txt, r) => txt ++ linksGo f r
      | none => c :: linksGo f rest
    else c :: linksGo f rest

/-- The character class of `/[#*`_]/g`. -/
def isStripped (c : Char) : Bool := c == '#' || c == '*' || c == btChar || c == '_'

/-- The pass `/[#*`_]/g → ''` (delete all remaining special characters). -/
def stripSpecials (l : List Char) : List Char := l.filter fun c => !isStripped c

/-- The bullet marker of the source file.  The file holds the UTF-8 mojibake
`U+00E2 U+20AC U+00A2` (the bytes of a bullet decoded as Latin-1), so the
regex matches that three-character sequence. -/
def bulletMark : List Char := [Char.ofNat 0xE2, Char.ofNat 0x20AC, Char.ofNat 0xA2]

/-- Strip a fixed marker sequence from the head of a list. -/
def stripMarker : List Char → List Char → Option (List Char)
  | [], l => some l
  | m :: ms, c :: rest => if c == m then stripMarker ms rest else none
  | _ :: _, [] => none

/-- Attempt the match `^\s*MARK\s*` at a line-start position (both `\s*` are
greedy and may span newlines).  Returns whether the position after the match
is again a line start (the last consumed character is a newline) and the rest. -/
def tryLineMark (mark : List Char) (l : List Char) : Option (Bool × List Char) :=
  match stripMarker mark (l.dropWhile isWs) with
  | none => none
  | some r2 =>
    let tws := r2.takeWhile isWs
    some (tws.getLast? == some '\n', r2.dropWhile isWs)

/-- The replacement text of the bullet rules. -/
def pointStr : List Char := "Point: ".data

/-- A pass `/^\s*MARK\s*/gm → 'Point: '` (line-start bullets become spoken
phrasing); the `Bool` tracks whether the current position is a line start
(`m`-flag `^`: position zero or just after a newline of the original string). -/
def lineMarkGo (mark : List Char) : Nat → Bool → List Char → List Char
  | 0, _, _ => []
  | _ + 1, _, [] => []
  | f + 1, atStart, c :: rest =>
    if atStart then
      match tryLineMark mark (c :: rest) with
      | some (st, r) => pointStr ++ lineMarkGo mark f st r
      | none => c :: lineMarkGo mark f (c == '\n') rest
    else c :: lineMarkGo mark f (c == '\n') rest

/-- Attempt the match `^\s*\d+\.\s*` at a line start.  Returns the line-start
flag for the resume position, the digit run, and the rest. -/
def tryLineNumber (l : List Char) : Option (Bool × List Char × List Char) :=
  let r1 := l.dropWhile isWs
  let ds := r1.takeWhile Char.isDigit
  if ds.isEmpty then none
  else
    match r1.dropWhile Char.isDigit with
    | '.' :: r2 =>
      let tws := r2.takeWhile isWs
      some (tws.getLast? == some '\n', ds, r2.dropWhile isWs)
    | _ => none

/-- The pass `/^\s*\d+\.\s*/gm` with functional replacement
`'Number ' + digits + '. '`. -/
def numberGo : Nat → Bool → List Char → List Char
  | 0, _, _ => []
  | _ + 1, _, [] => []
  | f + 1, atStart, c :: rest =>
    if atStart then
      match tryLineNumber (c :: rest) with
      | some (st, ds, r) => "Number ".data ++ ds ++ ". ".data ++ numberGo f st r
      | none => c :: numberGo f (c == '\n') rest
    else c :: numberGo f (c == '\n') rest

/-- The rest of `l` after its last newline, or `none` if `l` has no newline. -/
def afterLastNl : List Char → Option (List Char)
  | [] => none
  | c :: rest =>
    match afterLastNl rest with
    | some r => some r
    | none => if c == '\n' then some rest else none

/-- The pass `/\n\s*\n/g → '. '` (blank-line paragraph breaks become
sentence-ending punctuation).  The greedy `\s*` with the final mandatory `\n`
makes the match run from a newline to the last newline of the following
whitespace run. -/
def paraGo : Nat → List Char → List Char
  | 0, _ => []
  | _ + 1, [] => []
  | f + 1, c :: rest =>
    if c == '\n' then
      match afterLastNl (rest.takeWhile isWs) with
      | some suffix => '.' :: ' ' :: paraGo f (suffix ++ rest.dropWhile isWs)
      | none => c :: paraGo f rest
    else c :: paraGo f rest

/-- The pass `/\n/g → ', '` (single line breaks become commas). -/
def newlineToComma : List Char → List Char
  | [] => []
  | c :: rest =>
    if c == '\n' then ',' :: ' ' :: newlineToComma rest else c :: newlineToComma rest

/-- The pass `/\s+/g → ' '` (collapse whitespace runs to single spaces). -/
def collapseWsGo : Nat → List Char → List Char
  | 0, _ => []
  | _ + 1, [] => []
  | f + 1, c :: rest =>
    if isWs c then ' ' :: collapseWsGo f (rest.dropWhile isWs)
    else c :: collapseWsGo f rest

/-- JS `String.prototype.trim`: remove leading and trailing whitespace. -/
def trimWs (l : List Char) : List Char :=
  ((l.dropWhile isWs).reverse.dropWhile isWs).reverse

/-- Body of `cleanTextForSpeech` on character lists: the fourteen replace/trim steps of
`speechService.ts` lines 200-224, in source order. -/
def cleanTextForSpeechList (l0 : List Char) : List Char :=
  let l1 := headersGo l0.length l0
  let l2 := boldGo l1.length l1
  let l3 := pairGo '*' l2.length l2
  let l4 := pairGo btChar l3.length l3
  let l5 := fenceGo l4.length l4
  let l6 := linksGo l5.length l5
  let l7 := stripSpecials l6
  let l8 := lineMarkGo bulletMark l7.length true l7
  let l9 := lineMarkGo ['-'] l8.length true l8
  let l10 := numberGo l9.length true l9
  let l11 := paraGo l10.length l10
  let l12 := newlineToComma l11
  let l13 := collapseWsGo l12.length l12
  trimWs l13

/-- The text-cleaning transformation applied before synthesis
(`cleanTextForSpeech` of `speechService.ts`). -/
def cleanTextForSpeech (s : String) : String :=
  String.mk (cleanTextForSpeechList s.data)

/-- Whether the markdown link pattern `[text](url)` occurs anywhere in `l`,
using the source's own link-regex shape (`parseLink`). -/
def hasLinkSyntax : List Char → Bool
  | [] => false
  | c :: rest => (parseLink (c :: rest)).isSome || hasLinkSyntax rest

/-! ## Voices and voice selection (`speakText` lines 33-41 and 92-105) -/

/-- A platform synthesis voice: the two fields the selection logic reads. -/
structure Voice where
  name : String
  lang : String
deriving DecidableEq, Repr

/-- Is `pre` a leading segment of `l`? -/
def startsWithL : List Char → List Char → Bool
  | [], _ => true
  | _ :: _, [] => false
  | p :: ps, c :: cs => p == c && startsWithL ps cs

/-- Does `needle` occur contiguously in the list? -/
def containsSubL (needle : List Char) : List Char → Bool
  | [] => needle.isEmpty
  | c :: rest => startsWithL needle (c :: rest) || containsSubL needle rest

/-- JS `s.startsWith(pre)`. -/
def strStartsWith (s pre : String) : Bool := startsWithL pre.data s.data

/-- JS `s.includes(sub)`. -/
def strIncludes (s sub : String) : Bool := containsSubL sub.data s.data

/-- First preference: `voice.lang.startsWith('en')` together with an
`Enhanced` / `Premium` / `Natural` name hint. -/
def isQualityEnVoice (v : Voice) : Bool :=
  strStartsWith v.lang "en" &&
    (strIncludes v.name "Enhanced" || strIncludes v.name "Premium" || strIncludes v.name "Natural")

/-- Second preference: the language prefix alone. -/
def isEnVoice (v : Voice) : Bool := strStartsWith v.lang "en"

/-- The `preferredVoice` chain of `speakText`:
`voices.find(quality) || voices.find(en) || voices[0]`, where an out-of-range
`voices[0]` is `undefined` and then no voice is applied.  The deferred
`onvoiceschanged` branch (lines 92-105) runs the same chain on the updated
voice list. -/
def selectVoice (voices : List Voice) : Option Voice :=
  match voices.find? isQualityEnVoice with
  | some v => some v
  | none =>
    match voices.find? isEnVoice with
    | some v => some v
    | none => voices.head?

/-- Statement that `v` is the first element of `l` satisfying `p`. -/
def FirstMatch (p : Voice → Bool) (l : List Voice) (v : Voice) : Prop :=
  p v = true ∧ ∃ l1 l2, l = l1 ++ v :: l2 ∧ ∀ u ∈ l1, p u = false

/-- The voice-preference order in the spec's words: a language-prefix match
with an enhanced/premium/natural name hint wins, else a language-prefix match
alone, else the first available voice, else no voice. -/
def VoicePreferenceSpec (voices : List Voice) (r : Option Voice) : Prop :=
  ((∃ v ∈ voices, isQualityEnVoice v = true) →
      ∃ v, r = some v ∧ FirstMatch isQualityEnVoice voices v) ∧
  ((∀ v ∈ voices, isQualityEnVoice v = false) → (∃ v ∈ voices, isEnVoice v = true) →
      ∃ v, r = some v ∧ FirstMatch isEnVoice voices v) ∧
  ((∀ v ∈ voices, isQualityEnVoice v = false) → (∀ v ∈ voices, isEnVoice v = false) →
      r = voices.head?)

/-! ## Adapter module state (`speechService.ts` lines 5-7)

The module-level bookkeeping (`currentUtterance`, `isPaused`,
`isCurrentlySpeaking`) together with the observed platform engine
(`'speechSynthesis' in window`, `speechSynthesis.speaking`,
`speechSynthesis.paused`).  Utterances are identified by numbers; the engine
flags are owned by the platform and change asynchronously, so adapter commands
leave them untouched here. -/

structure SpeechGlobalState where
  supported : Bool
  engineSpeaking : Bool
  enginePaused : Bool
  currentUtterance : Option Nat
  isCurrentlySpeaking : Bool
  isPaused : Bool
deriving DecidableEq, Repr

/-- Source `stopSpeaking` (lines 115-122): when supported, cancel the engine and
clear all bookkeeping; otherwise do nothing. -/
def stopSpeaking (s : SpeechGlobalState) : SpeechGlobalState :=
  if s.supported then
    { s with currentUtterance := none, isPaused := false, isCurrentlySpeaking := false }
  else s

/-- A constructed `SpeechSynthesisUtterance` with the configuration
`speakText` applies (lines 24-41).  The numeric settings 0.9 / 1.0 / 0.8 are
exact decimals, recorded in tenths. -/
structure Utterance where
  text : String
  rateTenths : Nat
  pitchTenths : Nat
  volumeTenths : Nat
  voice : Option Voice
deriving DecidableEq, Repr

/-- Result of the synchronous part of `speakText`: rejection for a missing
platform, or the new module state plus the constructed utterance, playback
either begun (`started`) or postponed to the one-time `onvoiceschanged`
callback (`deferred`, taken exactly when the sampled voice list is empty). -/
inductive StartOutcome
  | rejectedUnsupported
  | started (s : SpeechGlobalState) (u : Utterance)
  | deferred (s : SpeechGlobalState) (u : Utterance)
deriving DecidableEq, Repr

/-- The synchronous body of `speakText` (lines 9-109): reject when
unsupported; otherwise `stopSpeaking()`, clean the text, construct and track
the utterance (`currentUtterance = utterance`), select a voice from the
sampled list, and either start speaking now or defer until voices load.
There is no emptiness check on the cleaned text. -/
def speakText (voices : List Voice) (newId : Nat) (text : String)
    (s : SpeechGlobalState) : StartOutcome :=
  if !s.supported then .rejectedUnsupported
  else
    let s1 := stopSpeaking s
    let u : Utterance :=
      { text := cleanTextForSpeech text, rateTenths := 9, pitchTenths := 10,
        volumeTenths := 8, voice := selectVoice voices }
    let s2 := { s1 with currentUtterance := some newId }
    if voices.isEmpty then .deferred s2 u
    else .started { s2 with isCurrentlySpeaking := true, isPaused := false } u

/-- The module state after the synchronous part of `speakText`. -/
def stateAfterStart (voices : List Voice) (newId : Nat) (text : String)
    (s : SpeechGlobalState) : SpeechGlobalState :=
  match speakText voices newId text s with
  | .rejectedUnsupported => s
  | .started s2 _ => s2
  | .deferred s2 _ => s2

/-- The `onend` / `onerror` handler body of an utterance (lines 60-74): it
clears the module bookkeeping unconditionally.  `_firedId`, the identity of
the utterance whose event fired, is never compared with `currentUtterance`. -/
def onEndFired (_firedId : Nat) (s : SpeechGlobalState) : SpeechGlobalState :=
  { s with currentUtterance := none, isPaused := false, isCurrentlySpeaking := false }

/-- Source `pauseSpeaking` (lines 127-147).  The second component records whether
`speechSynthesis.pause()` was invoked; `engineOk` says whether that call
returned normally (a throwing call is caught, leaving the state unchanged).
When the guard fails the function only logs a warning. -/
def pauseSpeaking (engineOk : Bool) (s : SpeechGlobalState) : SpeechGlobalState × Bool :=
  if s.supported && s.currentUtterance.isSome && s.isCurrentlySpeaking && !s.isPaused then
    if engineOk then ({ s with isPaused := true }, true) else (s, true)
  else (s, false)

/-- Source `isSpeaking` (lines 177-184). -/
def isSpeaking (s : SpeechGlobalState) : Bool :=
  s.supported && s.engineSpeaking && s.isCurrentlySpeaking && !s.isPaused

/-- Source `isSpeechPaused` (lines 189-195); note that it reads the tracked
utterance and the module `isPaused` flag, not the engine's `paused` signal. -/
def isSpeechPaused (s : SpeechGlobalState) : Bool :=
  s.supported && s.currentUtterance.isSome && s.isPaused

/-! ## The UI poll tick (`App.tsx` lines 31-68) -/

/-- The published speech portion of the React component state. -/
structure UiSpeech where
  uiSpeaking : Bool
  uiPaused : Bool
deriving DecidableEq, Repr

/-- The tri-state the presentation layer derives from the published pair,
in the branch order of `renderSpeechControls`. -/
inductive PublishedState
  | idle
  | speaking
  | paused
deriving DecidableEq, Repr

/-- Published tri-state of a UI pair. -/
def publishedOf (ui : UiSpeech) : PublishedState :=
  if ui.uiSpeaking && !ui.uiPaused then .speaking
  else if ui.uiPaused then .paused
  else .idle

/-- One tick of the 200 ms interval effect: sample `isSpeaking()` /
`isSpeechPaused()`, publish the sampled pair when it differs from the
published one, and reset to idle when both samples are false while the stale
published pair still looks active (both conditions read the captured,
pre-tick `state`). -/
def pollTick (g : SpeechGlobalState) (ui : UiSpeech) : UiSpeech :=
  let speaking := isSpeaking g
  let paused := isSpeechPaused g
  let ui1 :=
    if ui.uiSpeaking != speaking || ui.uiPaused != paused then UiSpeech.mk speaking paused
    else ui
  if !speaking && !paused && (ui.uiSpeaking || ui.uiPaused) then UiSpeech.mk false false
  else ui1

/-! ## Insight generation input checks (`geminiService.ts` lines 19-35) -/

/-- The failures `generateInsights` can raise before any network request. -/
inductive InsightFailure
  | notConfigured
  | inputTooShort
deriving DecidableEq, Repr

/-- The placeholder credential value rejected by the configuration check. -/
def geminiPlaceholder : String := "your_gemini_api_key_here"

/-- Content truncation to 4000 characters before prompt assembly. -/
def truncateContent (c : String) : String :=
  if c.length > 4000 then String.mk (c.data.take 4000) ++ "..." else c

/-- The pre-network part of `generateInsights`: the credential check, then the
minimum-length check (`!content || content.trim().length < 50`), in that
order.  Only when both pass is request content produced (`Except.ok` carries
the truncated content handed to the HTTP request). -/
def generateInsights (apiKey : Option String) (content : String) :
    Except InsightFailure String :=
  if apiKey = none ∨ apiKey = some "" ∨ apiKey = some geminiPlaceholder then
    .error .notConfigured
  else if content = "" ∨ (String.mk (trimWs content.data)).length < 50 then
    .error .inputTooShort
  else .ok (truncateContent content)

/-! ## Helper lemmas -/

theorem mem_of_mem_dropWhile {p : Char → Bool} {l : List Char} {c : Char}
    (h : c ∈ l.dropWhile p) : c ∈ l :=
  (List.dropWhile_sublist _).subset h

theorem mem_of_mem_takeWhile {p : Char → Bool} {l : List Char} {c : Char}
    (h : c ∈ l.takeWhile p) : c ∈ l :=
  (List.takeWhile_sublist _).subset h

theorem length_trimWs_le (l : List Char) : (trimWs l).length ≤ l.length := by
  unfold trimWs
  calc (((l.dropWhile isWs).reverse.dropWhile isWs).reverse).length
      = ((l.dropWhile isWs).reverse.dropWhile isWs).length := List.length_reverse _
    _ ≤ (l.dropWhile isWs).reverse.length := (List.dropWhile_sublist _).length_le
    _ = (l.dropWhile isWs).length := List.length_reverse _
    _ ≤ l.length := (List.dropWhile_sublist _).length_le

/-! ## C4: the header/bold scenario -/

/-- C4.  The cleaning transformation maps `"## Title\n\nSome **bold** text."`
to exactly `"Title. Some bold text."`: the header marker and the emphasis are
stripped and the blank-line paragraph break becomes a period. -/
theorem clean_scenario_header_bold :
    cleanTextForSpeech "## Title\n\nSome **bold** text." = "Title. Some bold text." := by
  decide

/-! ## C6: purity and idempotence -/

/-- C6 counterexample.  The cleaning transformation is not idempotent: on the
input `"[a]_(b)"` a second application changes the result again (the first
pass deletes the underscore, which creates the link pattern `[a](b)` that only
a second pass strips). -/
theorem clean_not_idempotent :
    cleanTextForSpeech (cleanTextForSpeech "[a]_(b)") ≠ cleanTextForSpeech "[a]_(b)" := by
  decide

/-- C6 amended.  The cleaning transformation (a pure function of its input)
fails idempotence concretely: `clean "[a]_(b)" = "[a](b)"` while
`clean "[a](b)" = "a"`. -/
theorem clean_second_pass_differs :
    cleanTextForSpeech "[a]_(b)" = "[a](b)" ∧ cleanTextForSpeech "[a](b)" = "a" := by
  constructor <;> decide

/-! ## C10: the two state predicates are mutually exclusive -/

/-- C10.  In every module state, `isSpeaking()` and `isSpeechPaused()` never
both return true: the first requires the `isPaused` flag to be clear, the
second requires it to be set.  Hence the published tri-state derived from the
pair is well defined. -/
theorem isSpeaking_isSpeechPaused_exclusive (s : SpeechGlobalState) :
    (isSpeaking s && isSpeechPaused s) = false := by
  unfold isSpeaking isSpeechPaused
  cases h : s.isPaused <;> simp [h]

/-! ## C2: stale completion callbacks are not identity-guarded -/

/-- C2 (code bug).  Start utterance 0, then utterance 1 (which cancels 0 and
installs 1 as `currentUtterance`).  When utterance 0's `onend` handler then
fires, the handler clears the bookkeeping unconditionally — there is no
identity check against the tracked utterance — so the state belonging to
utterance 1 is erased. -/
theorem stale_onend_clears_new_utterance :
    (stateAfterStart [Voice.mk "Alice" "fr"] 1 "second"
        (stateAfterStart [Voice.mk "Alice" "fr"] 0 "first"
          (SpeechGlobalState.mk true false false none false false))).currentUtterance
      = some 1 ∧
    (onEndFired 0 (stateAfterStart [Voice.mk "Alice" "fr"] 1 "second"
        (stateAfterStart [Voice.mk "Alice" "fr"] 0 "first"
          (SpeechGlobalState.mk true false false none false false)))).currentUtterance
      = none := by
  constructor <;> rfl

/-! ## C8: pause is a no-op outside active speech -/

/-- C8.  When the adapter does not believe an utterance is actively speaking —
no tracked utterance, the speaking flag clear, or already paused — then
`pauseSpeaking` leaves the state unchanged and issues no engine pause command
(and, being total, raises nothing). -/
theorem pause_noop_when_not_active (engineOk : Bool) (s : SpeechGlobalState)
    (h : s.currentUtterance = none ∨ s.isCurrentlySpeaking = false ∨ s.isPaused = true) :
    pauseSpeaking engineOk s = (s, false) := by
  unfold pauseSpeaking
  rcases h with h | h | h <;> simp [h]

/-- C8 witness: pausing in the idle initial state does nothing. -/
theorem pause_noop_when_not_active_witness :
    pauseSpeaking true (SpeechGlobalState.mk true false false none false false) =
      (SpeechGlobalState.mk true false false none false false, false) :=
  pause_noop_when_not_active true _ (Or.inl rfl)

/-! ## C9: short analysis input fails before any request -/

/-- C9.  With a configured credential, every content whose length is below the
50-character threshold makes `generateInsights` fail with the too-short error;
no request content is produced (the result is an `Except.error`, reached
before the `fetch`). -/
theorem generateInsights_short_input (apiKey : Option String) (content : String)
    (hconf : ¬(apiKey = none ∨ apiKey = some "" ∨ apiKey = some geminiPlaceholder))
    (hshort : content.length < 50) :
    generateInsights apiKey content = .error .inputTooShort := by
  unfold generateInsights
  rw [if_neg hconf, if_pos]
  exact Or.inr (lt_of_le_of_lt (length_trimWs_le content.data) hshort)

/-- C9 witness: a 10-character input with a configured key fails too-short. -/
theorem generateInsights_short_input_witness :
    ¬((some "k" : Option String) = none ∨ (some "k" : Option String) = some "" ∨
        (some "k" : Option String) = some geminiPlaceholder) ∧
    ("0123456789" : String).length < 50 ∧
    generateInsights (some "k") "0123456789" = .error .inputTooShort :=
  ⟨by decide, by decide, generateInsights_short_input _ _ (by decide) (by decide)⟩

/-! ## C1: the poll tick and "playback ended outside our control" -/

/-- C1 counterexample.  A tick at a state where the raw engine reports neither
speaking nor paused, while the published state is active (here `paused`, as
after a user pause followed by the engine going silent outside our control),
does not publish idle: the sampled `isSpeechPaused()` never consults the
engine, only the tracked utterance and the module `isPaused` flag, so the
tick publishes `paused` again. -/
theorem poll_tick_not_forced_idle :
    (SpeechGlobalState.mk true false false (some 0) true true).engineSpeaking = false ∧
    (SpeechGlobalState.mk true false false (some 0) true true).enginePaused = false ∧
    publishedOf (UiSpeech.mk false true) = PublishedState.paused ∧
    publishedOf (pollTick (SpeechGlobalState.mk true false false (some 0) true true)
        (UiSpeech.mk false true)) = PublishedState.paused := by
  decide

/-- C1 amended.  If the raw engine reports it is not speaking and the adapter
is not tracking a paused utterance (no tracked utterance, or its paused flag
clear), then a tick at an active published state publishes idle; in
particular the scenario raw `{speaking:false, paused:false}` with published
`speaking` yields `idle` whenever the adapter's paused flag is clear. -/
theorem poll_tick_reconciles_to_idle (g : SpeechGlobalState) (ui : UiSpeech)
    (heng : g.engineSpeaking = false)
    (hpause : g.currentUtterance = none ∨ g.isPaused = false)
    (hactive : publishedOf ui = PublishedState.speaking ∨
      publishedOf ui = PublishedState.paused) :
    publishedOf (pollTick g ui) = PublishedState.idle := by
  have hs : isSpeaking g = false := by simp [isSpeaking, heng]
  have hp : isSpeechPaused g = false := by
    rcases hpause with h | h <;> simp [isSpeechPaused, h]
  rcases ui with ⟨us, up⟩
  cases us <;> cases up <;>
    simp_all [pollTick, publishedOf]

/-- C1 witness: engine stopped outside our control while the adapter still
believed it was speaking — the tick publishes idle. -/
theorem poll_tick_reconciles_to_idle_witness :
    publishedOf (pollTick (SpeechGlobalState.mk true false false (some 0) true false)
        (UiSpeech.mk true false)) = PublishedState.idle :=
  poll_tick_reconciles_to_idle _ _ rfl (Or.inr rfl) (Or.inl rfl)

/-! ## C3: start failure modes -/

/-- C3 counterexample.  With a supported platform and empty input (whose
cleaned text is empty), `speakText` does not reject: it constructs an
utterance with empty text and begins playback — the code has no empty-input
check at all. -/
theorem speakText_empty_input_not_rejected :
    speakText [Voice.mk "Alice" "fr"] 0 ""
        (SpeechGlobalState.mk true false false none false false) =
      StartOutcome.started (SpeechGlobalState.mk true false false (some 0) true false)
        (Utterance.mk "" 9 10 8 (some (Voice.mk "Alice" "fr"))) := by
  decide

/-- C3 amended.  `speakText` rejects exactly the unsupported-platform case;
it performs no emptiness check: on a supported platform with a nonempty voice
list, an input whose cleaned text is empty still constructs an utterance
(with empty text) and playback begins. -/
theorem speakText_failure_modes (voices : List Voice) (newId : Nat) (text : String)
    (s : SpeechGlobalState) :
    (s.supported = false → speakText voices newId text s = .rejectedUnsupported) ∧
    (s.supported = true → voices ≠ [] → cleanTextForSpeech text = "" →
      ∃ s2 u, speakText voices newId text s = .started s2 u ∧ u.text = "") := by
  constructor
  · intro h
    simp [speakText, h]
  · intro hsup hv hclean
    have hne : voices.isEmpty = false := by
      cases voices with
      | nil => exact absurd rfl hv
      | cons a t => rfl
    refine ⟨{ stopSpeaking s with
                currentUtterance := some newId
                isCurrentlySpeaking := true
                isPaused := false },
            { text := cleanTextForSpeech text
              rateTenths := 9
              pitchTenths := 10
              volumeTenths := 8
              voice := selectVoice voices }, ?_, hclean⟩
    simp [speakText, hsup, hne]

/-- C3 witness: rejection on an unsupported platform, and playback with an
empty-text utterance for empty input on a supported one. -/
theorem speakText_failure_modes_witness :
    speakText [Voice.mk "Alice" "fr"] 0 ""
        (SpeechGlobalState.mk false false false none false false) =
      StartOutcome.rejectedUnsupported ∧
    ∃ s2 u, speakText [Voice.mk "Alice" "fr"] 0 ""
        (SpeechGlobalState.mk true false false none false false) =
      StartOutcome.started s2 u ∧ u.text = "" :=
  ⟨(speakText_failure_modes _ _ _ _).1 rfl,
   (speakText_failure_modes _ _ _ _).2 rfl (by simp) (by decide)⟩

/-! ## C7: the voice-preference order -/

theorem firstMatch_of_find? {p : Voice → Bool} :
    ∀ {l : List Voice} {v : Voice}, l.find? p = some v → FirstMatch p l v := by
  intro l
  induction l with
  | nil => intro v h; simp at h
  | cons a rest ih =>
    intro v h
    by_cases hp : p a = true
    · rw [List.find?_cons_of_pos _ hp] at h
      cases h
      exact ⟨hp, [], rest, rfl, by simp⟩
    · rw [List.find?_cons_of_neg _ hp] at h
      obtain ⟨hv, l1, l2, heq, hall⟩ := ih h
      refine ⟨hv, a :: l1, l2, by rw [heq]; rfl, ?_⟩
      intro u hu
      rcases List.mem_cons.mp hu with rfl | hu2
      · exact Bool.eq_false_iff.mpr hp
      · exact hall u hu2

theorem find?_isSome_of_exists {p : Voice → Bool} {l : List Voice}
    (h : ∃ v ∈ l, p v = true) : ∃ v, l.find? p = some v := by
  cases hf : l.find? p with
  | some v => exact ⟨v, rfl⟩
  | none =>
    rw [List.find?_eq_none] at hf
    obtain ⟨v, hv, hp⟩ := h
    exact absurd hp (hf v hv)

/-- C7.  The voice `speakText` applies satisfies the spec's preference order:
the first voice with an `en` language prefix and an enhanced/premium/natural
name hint; else the first voice with the language prefix alone; else the first
available voice; else none (`VoicePreferenceSpec`). -/
theorem selectVoice_preference (voices : List Voice) :
    VoicePreferenceSpec voices (selectVoice voices) := by
  refine ⟨?_, ?_, ?_⟩
  · intro hex
    obtain ⟨w, hw⟩ := find?_isSome_of_exists hex
    exact ⟨w, by simp [selectVoice, hw], firstMatch_of_find? hw⟩
  · intro hnone hex
    have h1 : voices.find? isQualityEnVoice = none :=
      List.find?_eq_none.mpr fun x hx => by simp [hnone x hx]
    obtain ⟨w, hw⟩ := find?_isSome_of_exists hex
    exact ⟨w, by simp [selectVoice, h1, hw], firstMatch_of_find? hw⟩
  · intro h1 h2
    have e1 : voices.find? isQualityEnVoice = none :=
      List.find?_eq_none.mpr fun x hx => by simp [h1 x hx]
    have e2 : voices.find? isEnVoice = none :=
      List.find?_eq_none.mpr fun x hx => by simp [h2 x hx]
    simp [selectVoice, e1, e2]

/-- C7 witness: with a single voice matching no preference, the fallback is
that first available voice. -/
theorem selectVoice_preference_witness :
    selectVoice [Voice.mk "Alice" "fr"] = some (Voice.mk "Alice" "fr") :=
  (selectVoice_preference [Voice.mk "Alice" "fr"]).2.2 (by decide) (by decide)

/-! ## C5: marker characters never survive cleaning -/

theorem stripMarker_subset :
    ∀ {m l r : List Char}, stripMarker m l = some r → ∀ {c : Char}, c ∈ r → c ∈ l := by
  intro m
  induction m with
  | nil =>
    intro l r h c hc
    simp only [stripMarker, Option.some.injEq] at h
    exact h ▸ hc
  | cons a ms ih =>
    intro l r h c hc
    cases l with
    | nil => simp [stripMarker] at h
    | cons b rest =>
      simp only [stripMarker] at h
      cases hb : b == a with
      | false => simp [hb] at h
      | true =>
        rw [hb] at h
        simp only [if_true] at h
        exact List.mem_cons_of_mem _ (ih h hc)

theorem tryLineMark_eq_some {mark l r2 : List Char}
    (hs : stripMarker mark (l.dropWhile isWs) = some r2) :
    tryLineMark mark l =
      some (((r2.takeWhile isWs).getLast? == some '\n'), r2.dropWhile isWs) := by
  unfold tryLineMark
  rw [hs]

theorem tryLineMark_subset {mark l : List Char} {b : Bool} {r : List Char}
    (h : tryLineMark mark l = some (b, r)) {c : Char} (hc : c ∈ r) : c ∈ l := by
  cases hs : stripMarker mark (l.dropWhile isWs) with
  | none => unfold tryLineMark at h; rw [hs] at h; cases h
  | some r2 =>
    rw [tryLineMark_eq_some hs] at h
    simp only [Option.some.injEq, Prod.mk.injEq] at h
    obtain ⟨-, hr⟩ := h
    subst hr
    exact mem_of_mem_dropWhile (stripMarker_subset hs (mem_of_mem_dropWhile hc))

theorem pointStr_not_stripped : ∀ c ∈ pointStr, isStripped c = false := by decide

theorem numberPrefix_not_stripped :
    ∀ c ∈ ("Number ".data : List Char), isStripped c = false := by decide

theorem dotSpace_not_stripped :
    ∀ c ∈ (". ".data : List Char), isStripped c = false := by decide

theorem mem_lineMarkGo {mark : List Char} :
    ∀ (f : Nat) (b : Bool) (l : List Char) {c : Char},
      c ∈ lineMarkGo mark f b l → c ∈ l ∨ isStripped c = false := by
  intro f
  induction f with
  | zero => intro b l c h; simp [lineMarkGo] at h
  | succ f ih =>
    intro b l c h
    cases l with
    | nil => simp [lineMarkGo] at h
    | cons a rest =>
      simp only [lineMarkGo] at h
      split at h
      · -- at a line start: try the bullet match
        cases htl : tryLineMark mark (a :: rest) with
        | some p =>
          obtain ⟨st, r⟩ := p
          rw [htl] at h
          rcases List.mem_append.mp h with hpt | hrec
          · exact Or.inr (pointStr_not_stripped c hpt)
          · rcases ih st r hrec with h4 | h4
            · exact Or.inl (tryLineMark_subset htl h4)
            · exact Or.inr h4
        | none =>
          rw [htl] at h
          rcases List.mem_cons.mp h with rfl | h2
          · exact Or.inl (List.mem_cons_self _ _)
          · rcases ih (a == '\n') rest h2 with h4 | h4
            · exact Or.inl (List.mem_cons_of_mem _ h4)
            · exact Or.inr h4
      · rcases List.mem_cons.mp h with rfl | h2
        · exact Or.inl (List.mem_cons_self _ _)
        · rcases ih (a == '\n') rest h2 with h4 | h4
          · exact Or.inl (List.mem_cons_of_mem _ h4)
          · exact Or.inr h4

theorem tryLineNumber_subset {l : List Char} {b : Bool} {ds r : List Char}
    (h : tryLineNumber l = some (b, ds, r)) :
    (∀ c ∈ ds, c ∈ l) ∧ (∀ c ∈ r, c ∈ l) := by
  simp only [tryLineNumber] at h
  split at h
  · cases h
  · split at h
    next c2 r2 heq =>
      simp only [Option.some.injEq, Prod.mk.injEq] at h
      obtain ⟨-, hds, hr⟩ := h
      subst hds
      subst hr
      constructor
      · intro c hc
        exact mem_of_mem_dropWhile (mem_of_mem_takeWhile hc)
      · intro c hc
        have h1 : c ∈ ('.' :: r2 : List Char) :=
          List.mem_cons_of_mem _ (mem_of_mem_dropWhile hc)
        rw [← heq] at h1
        exact mem_of_mem_dropWhile (mem_of_mem_dropWhile h1)
    next heq2 =>
      cases h

theorem mem_numberGo :
    ∀ (f : Nat) (b : Bool) (l : List Char) {c : Char},
      c ∈ numberGo f b l → c ∈ l ∨ isStripped c = false := by
  intro f
  induction f with
  | zero => intro b l c h; simp [numberGo] at h
  | succ f ih =>
    intro b l c h
    cases l with
    | nil => simp [numberGo] at h
    | cons a rest =>
      simp only [numberGo] at h
      split at h
      · cases htl : tryLineNumber (a :: rest) with
        | some p =>
          obtain ⟨st, ds, r⟩ := p
          rw [htl] at h
          rcases List.mem_append.mp h with hfix | hrec
          · rcases List.mem_append.mp hfix with hfix2 | hdot
            · rcases List.mem_append.mp hfix2 with hpre | hds
              · exact Or.inr (numberPrefix_not_stripped c hpre)
              · exact Or.inl ((tryLineNumber_subset htl).1 c hds)
            · exact Or.inr (dotSpace_not_stripped c hdot)
          · rcases ih st r hrec with h4 | h4
            · exact Or.inl ((tryLineNumber_subset htl).2 c h4)
            · exact Or.inr h4
        | none =>
          rw [htl] at h
          rcases List.mem_cons.mp h with rfl | h2
          · exact Or.inl (List.mem_cons_self _ _)
          · rcases ih (a == '\n') rest h2 with h4 | h4
            · exact Or.inl (List.mem_cons_of_mem _ h4)
            · exact Or.inr h4
      · rcases List.mem_cons.mp h with rfl | h2
        · exact Or.inl (List.mem_cons_self _ _)
        · rcases ih (a == '\n') rest h2 with h4 | h4
          · exact Or.inl (List.mem_cons_of_mem _ h4)
          · exact Or.inr h4

theorem mem_of_afterLastNl :
    ∀ {l r : List Char}, afterLastNl l = some r → ∀ {c : Char}, c ∈ r → c ∈ l := by
  intro l
  induction l with
  | nil => intro r h; simp [afterLastNl] at h
  | cons a rest ih =>
    intro r h c hc
    simp only [afterLastNl] at h
    cases hr : afterLastNl rest with
    | some r2 =>
      rw [hr] at h
      cases h
      exact List.mem_cons_of_mem _ (ih hr hc)
    | none =>
      rw [hr] at h
      by_cases ha : (a == '\n') = true
      · rw [if_pos ha] at h
        cases h
        exact List.mem_cons_of_mem _ hc
      · rw [if_neg ha] at h
        cases h

theorem mem_paraGo :
    ∀ (f : Nat) (l : List Char) {c : Char},
      c ∈ paraGo f l → c ∈ l ∨ isStripped c = false := by
  intro f
  induction f with
  | zero => intro l c h; simp [paraGo] at h
  | succ f ih =>
    intro l c h
    cases l with
    | nil => simp [paraGo] at h
    | cons a rest =>
      simp only [paraGo] at h
      split at h
      · cases hal : afterLastNl (rest.takeWhile isWs) with
        | some suffix =>
          rw [hal] at h
          rcases List.mem_cons.mp h with rfl | h2
          · exact Or.inr (by decide)
          rcases List.mem_cons.mp h2 with rfl | h3
          · exact Or.inr (by decide)
          rcases ih _ h3 with h4 | h4
          · rcases List.mem_append.mp h4 with h5 | h5
            · exact Or.inl (List.mem_cons_of_mem _
                (mem_of_mem_takeWhile (mem_of_afterLastNl hal h5)))
            · exact Or.inl (List.mem_cons_of_mem _ (mem_of_mem_dropWhile h5))
          · exact Or.inr h4
        | none =>
          rw [hal] at h
          rcases List.mem_cons.mp h with rfl | h2
          · exact Or.inl (List.mem_cons_self _ _)
          · rcases ih _ h2 with h4 | h4
            · exact Or.inl (List.mem_cons_of_mem _ h4)
            · exact Or.inr h4
      · rcases List.mem_cons.mp h with rfl | h2
        · exact Or.inl (List.mem_cons_self _ _)
        · rcases ih _ h2 with h4 | h4
          · exact Or.inl (List.mem_cons_of_mem _ h4)
          · exact Or.inr h4

theorem mem_newlineToComma :
    ∀ (l : List Char) {c : Char},
      c ∈ newlineToComma l → c ∈ l ∨ isStripped c = false := by
  intro l
  induction l with
  | nil => intro c h; simp [newlineToComma] at h
  | cons a rest ih =>
    intro c h
    simp only [newlineToComma] at h
    split at h
    · rcases List.mem_cons.mp h with rfl | h2
      · exact Or.inr (by decide)
      rcases List.mem_cons.mp h2 with rfl | h3
      · exact Or.inr (by decide)
      rcases ih h3 with h4 | h4
      · exact Or.inl (List.mem_cons_of_mem _ h4)
      · exact Or.inr h4
    · rcases List.mem_cons.mp h with rfl | h2
      · exact Or.inl (List.mem_cons_self _ _)
      · rcases ih h2 with h4 | h4
        · exact Or.inl (List.mem_cons_of_mem _ h4)
        · exact Or.inr h4

theorem mem_collapseWsGo :
    ∀ (f : Nat) (l : List Char) {c : Char},
      c ∈ collapseWsGo f l → c ∈ l ∨ isStripped c = false := by
  intro f
  induction f with
  | zero => intro l c h; simp [collapseWsGo] at h
  | succ f ih =>
    intro l c h
    cases l with
    | nil => simp [collapseWsGo] at h
    | cons a rest =>
      simp only [collapseWsGo] at h
      split at h
      · rcases List.mem_cons.mp h with rfl | h2
        · exact Or.inr (by decide)
        · rcases ih _ h2 with h4 | h4
          · exact Or.inl (List.mem_cons_of_mem _ (mem_of_mem_dropWhile h4))
          · exact Or.inr h4
      · rcases List.mem_cons.mp h with rfl | h2
        · exact Or.inl (List.mem_cons_self _ _)
        · rcases ih _ h2 with h4 | h4
          · exact Or.inl (List.mem_cons_of_mem _ h4)
          · exact Or.inr h4

theorem data_string_mk (l : List Char) : (String.mk l).data = l := rfl

theorem mem_trimWs {l : List Char} {c : Char} (h : c ∈ trimWs l) : c ∈ l := by
  unfold trimWs at h
  rw [List.mem_reverse] at h
  have h2 := mem_of_mem_dropWhile h
  rw [List.mem_reverse] at h2
  exact mem_of_mem_dropWhile h2

theorem cleanList_not_stripped (l0 : List Char) {c : Char}
    (hc : c ∈ cleanTextForSpeechList l0) : isStripped c = false := by
  simp only [cleanTextForSpeechList] at hc
  have h13 := mem_trimWs hc
  rcases mem_collapseWsGo _ _ h13 with h12 | hP
  · rcases mem_newlineToComma _ h12 with h11 | hP
    · rcases mem_paraGo _ _ h11 with h10 | hP
      · rcases mem_numberGo _ _ _ h10 with h9 | hP
        · rcases mem_lineMarkGo _ _ _ h9 with h8 | hP
          · rcases mem_lineMarkGo _ _ _ h8 with h7 | hP
            · have h6 := List.mem_filter.mp h7
              simpa using h6.2
            · exact hP
          · exact hP
        · exact hP
      · exact hP
    · exact hP
  · exact hP

/-- C5 amended.  For every input string, the cleaned text contains no `#`,
no `*` and no backtick character: the special-character pass deletes them all
and every later pass only reinserts characters from its input or from the
fixed replacement texts.  (The further part of the original claim — absence
of markdown link syntax — fails, see the counterexample.) -/
theorem cleaned_no_marker_chars (s : String) (c : Char)
    (hc : c ∈ (cleanTextForSpeech s).data) :
    c ≠ '#' ∧ c ≠ '*' ∧ c ≠ btChar := by
  unfold cleanTextForSpeech at hc
  rw [data_string_mk] at hc
  have h := cleanList_not_stripped s.data hc
  simp only [isStripped, Bool.or_eq_false_iff, beq_eq_false_iff_ne, ne_eq] at h
  exact ⟨h.1.1.1, h.1.1.2, h.1.2⟩

/-- C5 witness: the surviving character of `"# x"` is none of the markers. -/
theorem cleaned_no_marker_chars_witness :
    'x' ∈ (cleanTextForSpeech "# x").data ∧
      ('x' ≠ '#' ∧ 'x' ≠ '*' ∧ 'x' ≠ btChar) :=
  ⟨by decide, cleaned_no_marker_chars "# x" 'x' (by decide)⟩

set_option maxHeartbeats 1600000 in
/-- C5 counterexample.  An input containing a markdown header, bold and italic
markers, a code fence and a link, for which the cleaned output still contains
markdown link syntax: deleting the `_` of `[a]_(b)` creates `[a](b)` after
the single link-stripping pass has already run. -/
theorem cleaned_link_syntax_survives :
    strIncludes "# h **b** *i* ```c``` [x](y) [a]_(b)" "# " = true ∧
    strIncludes "# h **b** *i* ```c``` [x](y) [a]_(b)" "**b**" = true ∧
    strIncludes "# h **b** *i* ```c``` [x](y) [a]_(b)" "*i*" = true ∧
    strIncludes "# h **b** *i* ```c``` [x](y) [a]_(b)" "```" = true ∧
    strIncludes "# h **b** *i* ```c``` [x](y) [a]_(b)" "[x](y)" = true ∧
    hasLinkSyntax (cleanTextForSpeech "# h **b** *i* ```c``` [x](y) [a]_(b)").data = true := by
  decide

end BlogAnalyzer
